import Mathlib

/-!
Verification of the RASS CUISINE salary-management system (client script
`static/js/script.js` plus the ledger behaviour of the Flask backend).

JavaScript numbers that may be `NaN` are modelled as `Option ℚ`
(`none` = `NaN`); every comparison against `NaN` is `false`, exactly as in
IEEE/JS semantics.  Monetary arithmetic is modelled over `ℚ`.
-/

/-- A JavaScript number: `none` stands for `NaN`. -/
abbrev JSNum := Option ℚ

/-- JS `x > y`: `false` whenever either side is `NaN`. -/
def jsGt (x y : JSNum) : Bool :=
  match x, y with
  | some a, some b => decide (b < a)
  | _, _ => false

/-- JS `x <= y`: `false` whenever either side is `NaN`. -/
def jsLe (x y : JSNum) : Bool :=
  match x, y with
  | some a, some b => decide (a ≤ b)
  | _, _ => false

/-- `validateWithdrawal` from `static/js/script.js` (lines 131-146):
reads the parsed `amount` and the parsed `max` attribute, rejects when
`amount > maxAmount`, then when `amount <= 0`, otherwise accepts. -/
def validateWithdrawal (amount maxAmount : JSNum) : Bool :=
  if jsGt amount maxAmount then false
  else if jsLe amount (some 0) then false
  else true

/-- The character for one decimal digit. -/
def digitToChar (d : ℕ) : Char :=
  match d with
  | 0 => '0'
  | 1 => '1'
  | 2 => '2'
  | 3 => '3'
  | 4 => '4'
  | 5 => '5'
  | 6 => '6'
  | 7 => '7'
  | 8 => '8'
  | 9 => '9'
  | _ => '*'

/-- Base-10 digits of `n`, least significant first, with an explicit fuel
argument to keep the recursion structural. -/
def natDigitsAux : ℕ → ℕ → List ℕ
  | 0, _ => []
  | _ + 1, 0 => []
  | fuel + 1, n + 1 => ((n + 1) % 10) :: natDigitsAux fuel ((n + 1) / 10)

/-- Base-10 digits of `n`, least significant first (`[]` for `0`). -/
def natDigits (n : ℕ) : List ℕ :=
  natDigitsAux n n

/-- Decimal digit characters of a natural number, most significant first. -/
def natToChars (n : ℕ) : List Char :=
  if n = 0 then ['0'] else ((natDigits n).map digitToChar).reverse

/-- Insert a `,` before every further group of two characters (input is the
reversed digit string past the first group of three).  Used for the
`en-IN` locale grouping of `toLocaleString`. -/
def group2 : List Char → List Char
  | [] => []
  | [a] => [a]
  | a :: b :: rest =>
    match rest with
    | [] => [a, b]
    | _ :: _ => a :: b :: ',' :: group2 rest

/-- `en-IN` grouping on a reversed digit string: first group of three from
the right, then groups of two. -/
def groupRevIN (l : List Char) : List Char :=
  match l with
  | a :: b :: c :: rest@(_ :: _) => a :: b :: c :: ',' :: group2 rest
  | _ => l

/-- `en-IN` digit grouping (e.g. `1234567 ↦ 12,34,567`). -/
def groupIN (ds : List Char) : List Char :=
  (groupRevIN ds.reverse).reverse

/-- Default-locale grouping on a reversed digit string: groups of three. -/
def groupRev3 : List Char → List Char
  | [] => []
  | [a] => [a]
  | [a, b] => [a, b]
  | a :: b :: c :: rest =>
    match rest with
    | [] => [a, b, c]
    | _ :: _ => a :: b :: c :: ',' :: groupRev3 rest

/-- Default-locale digit grouping (e.g. `1234567 ↦ 1,234,567`). -/
def group3 (ds : List Char) : List Char :=
  (groupRev3 ds.reverse).reverse

/-- Round half away from zero, the default (`halfExpand`) rounding mode of
`Number.prototype.toLocaleString`. -/
def roundHalfAway (q : ℚ) : ℤ :=
  if 0 ≤ q then ⌊q + 1 / 2⌋ else -⌊-q + 1 / 2⌋

/-- The (at most three) fraction-digit characters of `f / 1000`
(`0 ≤ f < 1000`), with trailing zeros trimmed, as `toLocaleString` does for
its default `minimumFractionDigits = 0`. -/
def fracDigits3 (f : ℕ) : List Char :=
  if f % 10 ≠ 0 then [digitToChar (f / 100), digitToChar (f / 10 % 10), digitToChar (f % 10)]
  else if f % 100 ≠ 0 then [digitToChar (f / 100), digitToChar (f / 10 % 10)]
  else [digitToChar (f / 100)]

/-- Fraction part (with leading `.`) of `f / 1000`; empty when `f = 0`. -/
def fracChars (f : ℕ) : List Char :=
  if f = 0 then [] else '.' :: fracDigits3 f

/-- Render the value `m / 1000` with integer-part grouping `g`, a sign for
negative values, and at most three (trimmed) fraction digits — the shape of
`toLocaleString` output with its default fraction-digit settings. -/
def renderGrouped1000 (g : List Char → List Char) (m : ℤ) : List Char :=
  let a := m.natAbs
  let body := g (natToChars (a / 1000)) ++ fracChars (a % 1000)
  if m < 0 then '-' :: body else body

/-- Character output of `q.toLocaleString('en-IN')` (default fraction-digit
settings: at most three fraction digits, `halfExpand` rounding). -/
def renderINChars (q : ℚ) : List Char :=
  renderGrouped1000 groupIN (roundHalfAway (q * 1000))

/-- `q.toLocaleString('en-IN')` with the default fraction-digit settings. -/
def renderIN (q : ℚ) : String :=
  ⟨renderINChars q⟩

/-- Ungrouped decimal character rendering of `m / 1000` (sign, integer
digits, trimmed fraction digits): what is left of `renderGrouped1000`
after stripping the grouping commas. -/
def plainChars1000 (m : ℤ) : List Char :=
  (if m < 0 then ['-'] else [])
    ++ natToChars (m.natAbs / 1000) ++ fracChars (m.natAbs % 1000)

/-- Character output of `q.toLocaleString()` in the default locale
(three-digit grouping, at most three fraction digits). -/
def renderDefaultChars (q : ℚ) : List Char :=
  renderGrouped1000 group3 (roundHalfAway (q * 1000))

/-- JS `x.toLocaleString()` in the default locale; `NaN` renders as
`"NaN"`. -/
def jsToLocaleString (x : JSNum) : String :=
  match x with
  | some q => ⟨renderDefaultChars q⟩
  | none => "NaN"

/-- `formatNumber` from `openWithdrawalModal` (script.js lines 58-60):
`num.toLocaleString('en-IN', { maximumFractionDigits: 0 })` — rounds to a
whole number and renders with `en-IN` grouping and no fraction digits. -/
def formatNumberChars (q : ℚ) : List Char :=
  let z := roundHalfAway q
  (if z < 0 then ['-'] else []) ++ groupIN (natToChars z.natAbs)

/-- String form of `formatNumber`. -/
def formatNumber (q : ℚ) : String :=
  ⟨formatNumberChars q⟩

/-- Number of fraction digits a rendered decimal string displays: the
number of characters after the first `.` (zero when there is no `.`). -/
def fracDigitCount (s : String) : ℕ :=
  ((s.data.dropWhile (fun c => ¬(c = '.'))).drop 1).length

/-- Accumulate the value of a run of decimal digit characters. -/
def parseNatChars (cs : List Char) : ℕ :=
  cs.foldl (fun a c => 10 * a + (c.toNat - 48)) 0

/-- Whole-string parse of an unsigned decimal literal
(`digits [. digits]`, `. digits` or `digits .`), the decimal fragment of
the JS `Number()` coercion used by `isNaN`. -/
def parseUnsignedDec (cs : List Char) : Option ℚ :=
  let ip := cs.takeWhile Char.isDigit
  match cs.dropWhile Char.isDigit with
  | [] => if ip.isEmpty then none else some (parseNatChars ip : ℚ)
  | '.' :: fr =>
    if fr.all Char.isDigit && !(ip.isEmpty && fr.isEmpty) then
      some ((parseNatChars ip : ℚ) + (parseNatChars fr : ℚ) / 10 ^ fr.length)
    else
      none
  | _ => none

/-- Whole-string parse of a signed decimal literal; `none` models `NaN`.
This models `Number()`/`isNaN` on the plain decimal strings the script
produces and consumes (hex, exponent and infinity forms are not used by
the rendered output and are not modelled). -/
def parseDec (cs : List Char) : Option ℚ :=
  match cs with
  | [] => none
  | c :: rest =>
    if c = '-' then (parseUnsignedDec rest).map (fun q => -q)
    else if c = '+' then parseUnsignedDec rest
    else parseUnsignedDec cs

/-- Leading-prefix parse of an unsigned decimal literal, ignoring trailing
characters, as JS `parseFloat` does. -/
def parseFloatUnsigned (cs : List Char) : Option ℚ :=
  let ip := cs.takeWhile Char.isDigit
  let fp :=
    match cs.dropWhile Char.isDigit with
    | '.' :: fr => fr.takeWhile Char.isDigit
    | _ => []
  if ip.isEmpty && fp.isEmpty then none
  else some ((parseNatChars ip : ℚ) + (parseNatChars fp : ℚ) / 10 ^ fp.length)

/-- JS `parseFloat` on decimal literals: skip leading spaces, optional
sign, then the longest decimal prefix; `none` models `NaN` (returned e.g.
for the empty string). Exponent forms are not modelled. -/
def jsParseFloat (s : String) : Option ℚ :=
  match s.data.dropWhile (fun c => c = ' ') with
  | '-' :: rest => (parseFloatUnsigned rest).map (fun q => -q)
  | '+' :: rest => parseFloatUnsigned rest
  | body => parseFloatUnsigned body

/-- Remove every comma, as `input.value.replace(/,/g, '')` does. -/
def stripCommas (s : String) : String :=
  ⟨s.data.filter (fun c => ¬(c = ','))⟩

/-- `formatCurrency` from script.js lines 177-182: strip commas; if the
result is a (non-empty) numeric string, re-render it with
`parseFloat(value).toLocaleString('en-IN')`; otherwise leave the field
unchanged. -/
def formatCurrency (s : String) : String :=
  let v := stripCommas s
  match parseDec v.data with
  | some q => if v.data.isEmpty then s else renderIN q
  | none => s

/-- The state `openWithdrawalModal` leaves the withdrawal dialog in: the
interpolated salary/withdrawn/remaining texts, the `max` attribute and the
cleared `value` of the amount input. -/
structure ModalState where
  employee_id : ℕ
  headingText : String
  salaryText : String
  withdrawnText : String
  remainingText : String
  amountMax : ℚ
  amountValue : String
deriving DecidableEq

/-- `openWithdrawalModal` from script.js lines 52-90: computes
`remaining = totalSalary - withdrawn`, renders the three amounts with
`formatNumber`, stores `remaining` as the amount input's `max` and clears
its `value`. -/
def openWithdrawalModal (employeeId : ℕ) (employeeName : String)
    (totalSalary withdrawn : ℚ) : ModalState :=
  let remaining := totalSalary - withdrawn
  { employee_id := employeeId
    headingText := "Salary Details for " ++ employeeName
    salaryText := "Rs " ++ formatNumber totalSalary
    withdrawnText := "Rs " ++ formatNumber withdrawn
    remainingText := "Rs " ++ formatNumber remaining
    amountMax := remaining
    amountValue := "" }

/-- The alert text `validateWithdrawal` shows when the amount exceeds the
maximum (script.js line 136); it interpolates
`maxAmount.toLocaleString()`. -/
def exceedMessage (maxAmount : JSNum) : String :=
  "Withdrawal amount cannot exceed remaining balance (Rs " ++
    jsToLocaleString maxAmount ++ ")"

/-- `validateWithdrawal` together with the alert it raises: `some msg`
when validation fails with alert `msg`, `none` when it accepts. -/
def validateWithdrawalAlert (amount maxAmount : JSNum) : Option String :=
  if jsGt amount maxAmount then some (exceedMessage maxAmount)
  else if jsLe amount (some 0) then some "Please enter a valid withdrawal amount"
  else none

/-- Modelled from the spec: an Employee record of the Ledger Service
(`app.py` is not part of the provided sources); dates are day numbers. -/
structure Employee where
  id : ℕ
  name : String
  designation : String
  monthly_salary : ℚ
  join_date : ℕ
deriving DecidableEq

/-- Modelled from the spec: a Withdrawal Transaction; `id` doubles as the
creation order (ids are handed out in increasing order). -/
structure Txn where
  id : ℕ
  employee_id : ℕ
  amount : ℚ
  date : ℕ
  note : String
deriving DecidableEq

/-- Modelled from the spec: the ledger store — employee table, transaction
table, and the next transaction id (creation counter). -/
structure Ledger where
  employees : List Employee
  txns : List Txn
  nextTxnId : ℕ
deriving DecidableEq

/-- Modelled from the spec: the error taxonomy of the Ledger Service; the
`ValidationError` for an over-withdrawal carries the computed remaining
balance. -/
inductive LedgerError where
  | NotFoundError (id : ℕ)
  | ValidationError (remaining : ℚ)
deriving DecidableEq

/-- Look up an employee by id. -/
def findEmployee (L : Ledger) (eid : ℕ) : Option Employee :=
  L.employees.find? (fun e => e.id = eid)

/-- Derived quantity `withdrawn(employee)`: the sum of the amounts of the
employee's withdrawal transactions. -/
def withdrawnOf (L : Ledger) (eid : ℕ) : ℚ :=
  ((L.txns.filter (fun t => t.employee_id = eid)).map Txn.amount).sum

/-- Derived quantity `remaining(employee) = monthly_salary − withdrawn`
(zero for an unknown employee id). -/
def remainingOf (L : Ledger) (eid : ℕ) : ℚ :=
  match findEmployee L eid with
  | some e => e.monthly_salary - withdrawnOf L eid
  | none => 0

/-- Modelled from the spec: `recordWithdrawal(employee_id, amount, date,
note)` — `NotFoundError` for an unknown employee, `ValidationError`
(carrying the remaining balance) when `amount ≤ 0` or the amount exceeds
the remaining balance, otherwise persists one new transaction. -/
def recordWithdrawal (L : Ledger) (eid : ℕ) (amount : ℚ) (date : ℕ)
    (note : String) : Except LedgerError (Ledger × Txn) :=
  match findEmployee L eid with
  | none => .error (.NotFoundError eid)
  | some e =>
    let remaining := e.monthly_salary - withdrawnOf L eid
    if amount ≤ 0 ∨ remaining < amount then
      .error (.ValidationError remaining)
    else
      let t : Txn := ⟨L.nextTxnId, eid, amount, date, note⟩
      .ok ({ L with txns := L.txns ++ [t], nextTxnId := L.nextTxnId + 1 }, t)

/-- Modelled from the spec: `deleteEmployee(id)` — `NotFoundError` for an
unknown id, otherwise removes the employee and (in the same atomic update)
every transaction referencing it. -/
def deleteEmployee (L : Ledger) (eid : ℕ) : Except LedgerError Ledger :=
  match findEmployee L eid with
  | none => .error (.NotFoundError eid)
  | some _ =>
    .ok { employees := L.employees.filter (fun e => ¬(e.id = eid))
          txns := L.txns.filter (fun t => ¬(t.employee_id = eid))
          nextTxnId := L.nextTxnId }

/-- Run a sequence of `recordWithdrawal` calls for one employee;
`some L'` exactly when every call succeeds. -/
def runWithdrawals (L : Ledger) (eid : ℕ) :
    List (ℚ × ℕ × String) → Option Ledger
  | [] => some L
  | (a, d, n) :: rest =>
    match recordWithdrawal L eid a d n with
    | .ok (L', _) => runWithdrawals L' eid rest
    | .error _ => none

/-- The dashboard ordering on transactions: by transaction date
descending, ties broken by creation order (id) descending. -/
def recentBefore (t u : Txn) : Prop :=
  u.date < t.date ∨ (u.date = t.date ∧ u.id ≤ t.id)

instance : DecidableRel recentBefore := fun t u => by
  unfold recentBefore
  infer_instance

instance : IsTotal Txn recentBefore := by
  constructor
  intro t u
  unfold recentBefore
  omega

instance : IsTrans Txn recentBefore := by
  constructor
  intro a b c hab hbc
  unfold recentBefore at hab hbc ⊢
  omega

/-- Modelled from the spec: the dashboard view model. -/
structure Summary where
  employee_count : ℕ
  total_salary : ℚ
  total_withdrawn : ℚ
  total_remaining : ℚ
  recent_transactions : List Txn

/-- Modelled from the spec: `getDashboardSummary()` — a pure read
computing the aggregate totals from the current store and the at most ten
most recent transactions (date descending, ties by creation order
descending). -/
def getDashboardSummary (L : Ledger) : Summary :=
  let ts := (L.employees.map Employee.monthly_salary).sum
  let tw := (L.txns.map Txn.amount).sum
  { employee_count := L.employees.length
    total_salary := ts
    total_withdrawn := tw
    total_remaining := ts - tw
    recent_transactions := (L.txns.insertionSort recentBefore).take 10 }

/-- A concrete employee used to instantiate theorems with hypotheses. -/
def sampleEmployee : Employee :=
  ⟨1, "Asha", "Cook", 100, 0⟩

/-- A concrete one-employee store with no transactions yet. -/
def sampleLedger : Ledger :=
  ⟨[sampleEmployee], [], 0⟩

/-- `sampleLedger` after the two withdrawals `30` and `50` succeed. -/
def sampleLedgerAfter : Ledger :=
  ⟨[sampleEmployee], [⟨0, 1, 30, 1, ""⟩, ⟨1, 1, 50, 2, ""⟩], 2⟩

/-- A concrete employee whose salary was edited down to `10` after a
withdrawal of `15` was recorded, leaving a negative remaining balance. -/
def overdrawnEmployee : Employee :=
  ⟨1, "Asha", "Cook", 10, 0⟩

/-- A concrete store in the retroactively over-withdrawn state. -/
def overdrawnLedger : Ledger :=
  ⟨[overdrawnEmployee], [⟨0, 1, 15, 2, ""⟩], 1⟩

/-- A concrete two-employee store with transactions for both, used to
instantiate the cascade-delete theorem. -/
def twoEmployeeLedger : Ledger :=
  ⟨[sampleEmployee, ⟨2, "Ravi", "Waiter", 50, 0⟩],
   [⟨0, 1, 30, 1, ""⟩, ⟨1, 2, 5, 1, ""⟩], 2⟩

/-- C2: a withdrawal request is rejected exactly when the requested amount
is `≤ 0` or exceeds the remaining balance: `validateWithdrawal` returns
`false` iff `amount ≤ 0 ∨ remaining < amount`, and `recordWithdrawal`
fails (recording nothing, since no updated store is produced) under
exactly the same condition. -/
theorem validateWithdrawal_reject_iff (a m : ℚ) (L : Ledger) (eid : ℕ)
    (e : Employee) (d : ℕ) (note : String)
    (h : findEmployee L eid = some e) :
    (validateWithdrawal (some a) (some m) = false ↔ (a ≤ 0 ∨ m < a))
    ∧ (m < a → validateWithdrawal (some a) (some m) = false)
    ∧ (0 < a → a ≤ m → validateWithdrawal (some a) (some m) = true)
    ∧ ((∃ err, recordWithdrawal L eid a d note = .error err) ↔
        (a ≤ 0 ∨ e.monthly_salary - withdrawnOf L eid < a)) := by
  refine ⟨?_, ?_, ?_, ?_⟩
  · by_cases h1 : m < a <;> by_cases h2 : a ≤ 0 <;>
      simp [validateWithdrawal, jsGt, jsLe, h1, h2]
  · intro h1
    simp [validateWithdrawal, jsGt, h1]
  · intro h1 h2
    simp [validateWithdrawal, jsGt, jsLe, not_lt.mpr h2, not_le.mpr h1]
  · simp only [recordWithdrawal, h]
    by_cases hc : a ≤ 0 ∨ e.monthly_salary - withdrawnOf L eid < a
    · rw [if_pos hc]
      constructor
      · intro _
        exact hc
      · intro _
        exact ⟨.ValidationError _, rfl⟩
    · rw [if_neg hc]
      constructor
      · rintro ⟨err, he⟩
        cases he
      · intro hx
        exact absurd hx hc

/-- Witness for `validateWithdrawal_reject_iff` at amount 5, maximum 3, on
the concrete one-employee store. -/
theorem validateWithdrawal_reject_iff_witness :
    (validateWithdrawal (some 5) (some 3) = false ↔ ((5 : ℚ) ≤ 0 ∨ (3 : ℚ) < 5))
    ∧ ((3 : ℚ) < 5 → validateWithdrawal (some 5) (some 3) = false)
    ∧ ((0 : ℚ) < 5 → (5 : ℚ) ≤ 3 → validateWithdrawal (some 5) (some 3) = true)
    ∧ ((∃ err, recordWithdrawal sampleLedger 1 5 0 "" = .error err) ↔
        ((5 : ℚ) ≤ 0 ∨ sampleEmployee.monthly_salary - withdrawnOf sampleLedger 1 < 5)) :=
  validateWithdrawal_reject_iff 5 3 sampleLedger 1 sampleEmployee 0 "" (by decide)

/-- C4: when the amount exceeds the maximum, the rejection alert is a
fixed message interpolating the formatted remaining balance, so the text
shown to the user contains that value as a function of the balance alone
(no further query). -/
theorem exceed_alert_carries_remaining (a m : ℚ) (h : m < a) :
    validateWithdrawalAlert (some a) (some m) = some (exceedMessage (some m))
    ∧ ∃ pre post, exceedMessage (some m) = pre ++ jsToLocaleString (some m) ++ post := by
  refine ⟨?_, "Withdrawal amount cannot exceed remaining balance (Rs ", ")", rfl⟩
  simp [validateWithdrawalAlert, jsGt, h]

/-- Witness for `exceed_alert_carries_remaining` at amount 10, maximum 3. -/
theorem exceed_alert_carries_remaining_witness :
    validateWithdrawalAlert (some 10) (some 3) = some (exceedMessage (some 3))
    ∧ ∃ pre post, exceedMessage (some 3) = pre ++ jsToLocaleString (some 3) ++ post :=
  exceed_alert_carries_remaining 10 3 (by norm_num)

/-- C5: while the remaining balance is negative (salary edited below the
withdrawn total), every positive-amount withdrawal attempt fails
client-side validation, and `recordWithdrawal` rejects it as well. -/
theorem negative_remaining_blocks (a : ℚ) (L : Ledger) (eid : ℕ)
    (e : Employee) (d : ℕ) (note : String)
    (h : findEmployee L eid = some e)
    (hneg : e.monthly_salary - withdrawnOf L eid < 0) (ha : 0 < a) :
    validateWithdrawal (some a) (some (e.monthly_salary - withdrawnOf L eid)) = false
    ∧ ∃ err, recordWithdrawal L eid a d note = .error err := by
  constructor
  · have hlt : e.monthly_salary - withdrawnOf L eid < a := lt_trans hneg ha
    simp [validateWithdrawal, jsGt, hlt]
  · simp only [recordWithdrawal, h]
    rw [if_pos (Or.inr (lt_trans hneg ha))]
    exact ⟨.ValidationError _, rfl⟩

/-- Witness for `negative_remaining_blocks` on the over-withdrawn store
(salary 10, withdrawn 15) with attempted amount 3. -/
theorem negative_remaining_blocks_witness :
    validateWithdrawal (some 3)
      (some (overdrawnEmployee.monthly_salary - withdrawnOf overdrawnLedger 1)) = false
    ∧ ∃ err, recordWithdrawal overdrawnLedger 1 3 4 "" = .error err :=
  negative_remaining_blocks 3 overdrawnLedger 1 overdrawnEmployee 4 ""
    (by rfl) (by norm_num [withdrawnOf, overdrawnLedger, overdrawnEmployee]) (by norm_num)

/-- C9: a withdrawal amount string that parses to `NaN` — such as the
empty string the modal leaves in the field — passes `validateWithdrawal`,
because `NaN > max` and `NaN <= 0` are both false. -/
theorem nan_amount_passes_validation :
    jsParseFloat "" = none
    ∧ ∀ m : ℚ, validateWithdrawal (jsParseFloat "") (some m) = true :=
  ⟨rfl, fun _ => rfl⟩

/-- `remainingOf` unfolded at an employee the lookup finds. -/
theorem remainingOf_eq (L : Ledger) (eid : ℕ) (e : Employee)
    (h : findEmployee L eid = some e) :
    remainingOf L eid = e.monthly_salary - withdrawnOf L eid := by
  unfold remainingOf
  rw [h]

/-- Appending one transaction of the employee adds its amount to the
employee's withdrawn total. -/
theorem withdrawnOf_append_one (L : Ledger) (eid k : ℕ) (t : Txn)
    (ht : t.employee_id = eid) :
    withdrawnOf { L with txns := L.txns ++ [t], nextTxnId := k } eid
      = withdrawnOf L eid + t.amount := by
  unfold withdrawnOf
  simp [List.filter_append, ht]

/-- A successful `recordWithdrawal` had a positive amount within the
remaining balance, and decreases the remaining balance by that amount. -/
theorem recordWithdrawal_ok_spec (L : Ledger) (eid : ℕ) (a : ℚ) (d : ℕ)
    (nt : String) (p : Ledger × Txn)
    (h : recordWithdrawal L eid a d nt = .ok p) :
    0 < a ∧ a ≤ remainingOf L eid
      ∧ remainingOf p.1 eid = remainingOf L eid - a := by
  cases hf : findEmployee L eid with
  | none =>
    simp [recordWithdrawal, hf] at h
  | some e =>
    simp only [recordWithdrawal, hf] at h
    by_cases hc : a ≤ 0 ∨ e.monthly_salary - withdrawnOf L eid < a
    · rw [if_pos hc] at h
      cases h
    · rw [if_neg hc] at h
      push_neg at hc
      injection h with h1
      subst h1
      have hL : remainingOf L eid = e.monthly_salary - withdrawnOf L eid :=
        remainingOf_eq L eid e hf
      refine ⟨hc.1, by rw [hL]; linarith [hc.2], ?_⟩
      have hf' : findEmployee
          { L with txns := L.txns ++ [⟨L.nextTxnId, eid, a, d, nt⟩],
                   nextTxnId := L.nextTxnId + 1 } eid = some e := hf
      rw [remainingOf_eq _ eid e hf', hL,
        withdrawnOf_append_one L eid _ _ rfl]
      ring

/-- C3: starting from a store whose remaining balance for the employee is
nonnegative, any sequence of successful `recordWithdrawal` calls (no
intervening salary edit) keeps the remaining balance
`monthly_salary − Σ withdrawn` nonnegative. -/
theorem remaining_nonneg_after_withdrawals (eid : ℕ)
    (reqs : List (ℚ × ℕ × String)) :
    ∀ L L' : Ledger, 0 ≤ remainingOf L eid →
      runWithdrawals L eid reqs = some L' → 0 ≤ remainingOf L' eid := by
  induction reqs with
  | nil =>
    intro L L' h0 h
    simp only [runWithdrawals] at h
    injection h with h1
    rw [← h1]
    exact h0
  | cons r rest ih =>
    obtain ⟨a, d, n⟩ := r
    intro L L' h0 h
    simp only [runWithdrawals] at h
    cases hr : recordWithdrawal L eid a d n with
    | error err =>
      rw [hr] at h
      cases h
    | ok p =>
      rw [hr] at h
      obtain ⟨hpos, hle, hrem⟩ := recordWithdrawal_ok_spec L eid a d n p hr
      exact ih p.1 L' (by rw [hrem]; linarith) h

/-- Witness for `remaining_nonneg_after_withdrawals`: salary 100, two
successful withdrawals of 30 and 50. -/
theorem remaining_nonneg_after_withdrawals_witness :
    0 ≤ remainingOf sampleLedgerAfter 1 :=
  remaining_nonneg_after_withdrawals 1 [(30, 1, ""), (50, 2, "")]
    sampleLedger sampleLedgerAfter
    (by norm_num [remainingOf, findEmployee, sampleLedger, sampleEmployee, withdrawnOf])
    (by norm_num [runWithdrawals, recordWithdrawal, findEmployee, sampleLedger,
      sampleEmployee, withdrawnOf, sampleLedgerAfter])

/-- C1: the withdrawal modal computes `remaining = totalSalary − withdrawn`
— with `withdrawn` the sum of the employee's withdrawal transaction
amounts, the presented remaining balance is `monthly_salary − Σ amounts`,
and the same value is stored as the amount input's maximum. -/
theorem modal_remaining_eq (L : Ledger) (eid : ℕ) (e : Employee)
    (_h : findEmployee L eid = some e) :
    (openWithdrawalModal eid e.name e.monthly_salary (withdrawnOf L eid)).amountMax
      = e.monthly_salary - ((L.txns.filter (fun t => t.employee_id = eid)).map Txn.amount).sum
    ∧ (openWithdrawalModal eid e.name e.monthly_salary (withdrawnOf L eid)).remainingText
      = "Rs " ++ formatNumber (e.monthly_salary
          - ((L.txns.filter (fun t => t.employee_id = eid)).map Txn.amount).sum) :=
  ⟨rfl, rfl⟩

/-- Witness for `modal_remaining_eq` on the concrete store with two
recorded withdrawals. -/
theorem modal_remaining_eq_witness :
    (openWithdrawalModal 1 sampleEmployee.name sampleEmployee.monthly_salary
        (withdrawnOf sampleLedgerAfter 1)).amountMax
      = sampleEmployee.monthly_salary
        - ((sampleLedgerAfter.txns.filter (fun t => t.employee_id = 1)).map Txn.amount).sum
    ∧ (openWithdrawalModal 1 sampleEmployee.name sampleEmployee.monthly_salary
        (withdrawnOf sampleLedgerAfter 1)).remainingText
      = "Rs " ++ formatNumber (sampleEmployee.monthly_salary
          - ((sampleLedgerAfter.txns.filter (fun t => t.employee_id = 1)).map Txn.amount).sum) :=
  modal_remaining_eq sampleLedgerAfter 1 sampleEmployee (by rfl)

/-- C7: deleting an existing employee removes, in one atomic update, the
employee and every transaction referencing it, and a subsequent
`recordWithdrawal` for that id fails with `NotFoundError`. -/
theorem deleteEmployee_cascades (L : Ledger) (eid : ℕ) (e : Employee)
    (h : findEmployee L eid = some e) :
    ∃ L', deleteEmployee L eid = .ok L'
      ∧ (∀ e', e' ∈ L'.employees → ¬(e'.id = eid))
      ∧ (∀ t, t ∈ L'.txns → ¬(t.employee_id = eid))
      ∧ (∀ a d n, recordWithdrawal L' eid a d n = .error (.NotFoundError eid)) := by
  refine ⟨{ employees := L.employees.filter (fun x => ¬(x.id = eid)),
            txns := L.txns.filter (fun t => ¬(t.employee_id = eid)),
            nextTxnId := L.nextTxnId }, ?_, ?_, ?_, ?_⟩
  · unfold deleteEmployee
    rw [h]
  · intro e' he'
    simpa using (List.mem_filter.mp he').2
  · intro t ht
    simpa using (List.mem_filter.mp ht).2
  · intro a d n
    have hnone : findEmployee
        { employees := L.employees.filter (fun x => ¬(x.id = eid)),
          txns := L.txns.filter (fun t => ¬(t.employee_id = eid)),
          nextTxnId := L.nextTxnId } eid = none := by
      unfold findEmployee
      simp only [List.find?_eq_none]
      intro x hx
      simpa using (List.mem_filter.mp hx).2
    unfold recordWithdrawal
    rw [hnone]

/-- Witness for `deleteEmployee_cascades` on the concrete two-employee
store, deleting employee 1. -/
theorem deleteEmployee_cascades_witness :
    ∃ L', deleteEmployee twoEmployeeLedger 1 = .ok L'
      ∧ (∀ e', e' ∈ L'.employees → ¬(e'.id = 1))
      ∧ (∀ t, t ∈ L'.txns → ¬(t.employee_id = 1))
      ∧ (∀ a d n, recordWithdrawal L' 1 a d n = .error (.NotFoundError 1)) :=
  deleteEmployee_cascades twoEmployeeLedger 1 sampleEmployee (by rfl)

/-- C6: the dashboard summary is computed from the current store:
`total_salary = Σ monthly_salary`, `total_withdrawn = Σ amounts`,
`total_remaining = total_salary − total_withdrawn`, and
`recent_transactions` holds at most ten transactions of the store ordered
by date descending with ties broken by creation order descending. -/
theorem dashboard_summary_spec (L : Ledger) :
    (getDashboardSummary L).employee_count = L.employees.length
    ∧ (getDashboardSummary L).total_salary = (L.employees.map Employee.monthly_salary).sum
    ∧ (getDashboardSummary L).total_withdrawn = (L.txns.map Txn.amount).sum
    ∧ (getDashboardSummary L).total_remaining
        = (getDashboardSummary L).total_salary - (getDashboardSummary L).total_withdrawn
    ∧ (getDashboardSummary L).recent_transactions.length ≤ 10
    ∧ List.Sorted recentBefore (getDashboardSummary L).recent_transactions
    ∧ ∀ t, t ∈ (getDashboardSummary L).recent_transactions → t ∈ L.txns := by
  refine ⟨rfl, rfl, rfl, rfl, ?_, ?_, ?_⟩
  · exact List.length_take_le 10 _
  · exact List.Pairwise.sublist (List.take_sublist 10 _)
      (List.sorted_insertionSort recentBefore L.txns)
  · intro t ht
    exact (List.perm_insertionSort recentBefore L.txns).subset
      ((List.take_sublist 10 _).subset ht)

/-- `digitToChar` never produces a decimal point. -/
theorem digitToChar_ne_dot (d : ℕ) : ¬(digitToChar d = '.') := by
  unfold digitToChar
  split <;> decide

/-- `digitToChar` never produces a comma. -/
theorem digitToChar_ne_comma (d : ℕ) : ¬(digitToChar d = ',') := by
  unfold digitToChar
  split <;> decide

/-- Every character of `natToChars n` is the character of some digit. -/
theorem mem_natToChars (n : ℕ) (c : Char) (h : c ∈ natToChars n) :
    ∃ d, c = digitToChar d := by
  unfold natToChars at h
  split at h
  · refine ⟨0, ?_⟩
    simpa using h
  · rw [List.mem_reverse] at h
    obtain ⟨d, _, rfl⟩ := List.mem_map.mp h
    exact ⟨d, rfl⟩

/-- A comma-free character list is unchanged by the comma filter. -/
theorem filter_eq_self_of_no_comma (l : List Char)
    (hl : ∀ c ∈ l, ¬(c = ',')) :
    l.filter (fun c => ¬(c = ',')) = l := by
  induction l with
  | nil => rfl
  | cons a t ih =>
    have ha : ¬(a = ',') := hl a (by simp)
    simp [List.filter_cons, ha]
    intro c hc
    exact hl c (List.mem_cons_of_mem a hc)

/-- Filtering out commas undoes the two-digit grouping insertion on a
comma-free input. -/
theorem filter_group2_strip :
    ∀ l : List Char, (∀ c ∈ l, ¬(c = ',')) →
      (group2 l).filter (fun c => ¬(c = ',')) = l := by
  intro l
  induction l using group2.induct with
  | case1 =>
    intro _
    rfl
  | case2 a =>
    intro hl
    exact filter_eq_self_of_no_comma [a] hl
  | case3 a b =>
    intro hl
    exact filter_eq_self_of_no_comma [a, b] hl
  | case4 a b r rest ih =>
    intro hl
    have ha : ¬(a = ',') := hl a (by simp)
    have hb : ¬(b = ',') := hl b (by simp)
    have ih' := ih fun c hc =>
      hl c (List.mem_cons_of_mem a (List.mem_cons_of_mem b hc))
    show (a :: b :: ',' :: group2 (r :: rest)).filter (fun c => ¬(c = ',')) =
      a :: b :: r :: rest
    simp [List.filter_cons, ha, hb]
    simpa using ih'

/-- Filtering out commas undoes the full `en-IN` grouping insertion on a
comma-free (reversed) digit string. -/
theorem filter_groupRevIN_strip (l : List Char)
    (hl : ∀ c ∈ l, ¬(c = ',')) :
    (groupRevIN l).filter (fun c => ¬(c = ',')) = l := by
  unfold groupRevIN
  split
  · rename_i a b c1 d tail
    have ha : ¬(a = ',') := hl a (by simp)
    have hb : ¬(b = ',') := hl b (by simp)
    have hc1 : ¬(c1 = ',') := hl c1 (by simp)
    have h2 := filter_group2_strip (d :: tail) (fun x hx => hl x (by
      simp only [List.mem_cons] at hx ⊢
      tauto))
    simp [List.filter_cons, ha, hb, hc1]
    simpa using h2
  · exact filter_eq_self_of_no_comma l hl

/-- Stripping commas undoes the `en-IN` grouping of a comma-free digit
string. -/
theorem filter_groupIN_strip (ds : List Char)
    (hd : ∀ c ∈ ds, ¬(c = ',')) :
    (groupIN ds).filter (fun c => ¬(c = ',')) = ds := by
  unfold groupIN
  rw [List.filter_reverse,
    filter_groupRevIN_strip ds.reverse (fun c hc => hd c (List.mem_reverse.mp hc)),
    List.reverse_reverse]

/-- A non-comma character of the grouped digit string was a digit
character of the ungrouped string. -/
theorem mem_of_mem_groupIN (ds : List Char) (c : Char) (h : c ∈ groupIN ds)
    (hd : ∀ x ∈ ds, ¬(x = ',')) (hc : ¬(c = ',')) : c ∈ ds := by
  have hmem : c ∈ (groupIN ds).filter (fun x => ¬(x = ',')) :=
    List.mem_filter.mpr ⟨h, by simpa using hc⟩
  rwa [filter_groupIN_strip ds hd] at hmem

/-- Every character of `natToChars` is a digit character, hence not a
comma. -/
theorem natToChars_no_comma (n : ℕ) (c : Char) (h : c ∈ natToChars n) :
    ¬(c = ',') := by
  obtain ⟨d, rfl⟩ := mem_natToChars n c h
  exact digitToChar_ne_comma d

/-- Every character of `natToChars` is a digit character, hence not a
decimal point. -/
theorem natToChars_no_dot (n : ℕ) (c : Char) (h : c ∈ natToChars n) :
    ¬(c = '.') := by
  obtain ⟨d, rfl⟩ := mem_natToChars n c h
  exact digitToChar_ne_dot d

/-- `formatNumber` output contains no decimal point: it renders a sign,
grouped digits and commas only. -/
theorem formatNumberChars_no_dot (q : ℚ) (c : Char)
    (h : c ∈ formatNumberChars q) : ¬(c = '.') := by
  unfold formatNumberChars at h
  rw [List.mem_append] at h
  rcases h with h | h
  · split at h
    · simp only [List.mem_singleton] at h
      subst h
      decide
    · simp at h
  · by_cases hc : c = ','
    · subst hc
      decide
    · exact natToChars_no_dot _ c
        (mem_of_mem_groupIN _ c h (natToChars_no_comma _) hc)

/-- `dropWhile (· ≠ '.')` consumes a dot-free list entirely. -/
theorem dropWhile_ne_dot_eq_nil (l : List Char)
    (h : ∀ c ∈ l, ¬(c = '.')) :
    l.dropWhile (fun c => ¬(c = '.')) = [] := by
  induction l with
  | nil => rfl
  | cons a t ih =>
    rw [List.dropWhile_cons, if_pos (by simpa using h a (by simp))]
    exact ih fun c hc => h c (List.mem_cons_of_mem a hc)

/-- The `Rs`-prefixed `formatNumber` rendering displays zero fraction
digits. -/
theorem fracDigitCount_rs_formatNumber (q : ℚ) :
    fracDigitCount ("Rs " ++ formatNumber q) = 0 := by
  unfold fracDigitCount formatNumber
  rw [String.data_append]
  rw [dropWhile_ne_dot_eq_nil]
  · rfl
  · intro c hc
    rw [List.mem_append] at hc
    rcases hc with hc | hc
    · have hdata : ("Rs ").data = ['R', 's', ' '] := rfl
      rw [hdata] at hc
      simp only [List.mem_cons, List.not_mem_nil, or_false] at hc
      rcases hc with rfl | rfl | rfl <;> decide
    · exact formatNumberChars_no_dot q c hc

/-- `⌊1/2⌋ = 0` over `ℚ`. -/
theorem floor_half : ⌊(1 : ℚ) / 2⌋ = 0 := by
  rw [Int.floor_eq_zero_iff]
  constructor <;> norm_num

/-- `halfExpand` rounding is the identity on integers. -/
theorem roundHalfAway_intCast (m : ℤ) : roundHalfAway (m : ℚ) = m := by
  unfold roundHalfAway
  rcases le_or_lt 0 (m : ℚ) with h | h
  · rw [if_pos h, Int.floor_int_add, floor_half, add_zero]
  · rw [if_neg (not_le.mpr h)]
    have hneg : -(m : ℚ) = ((-m : ℤ) : ℚ) := by push_cast; ring
    rw [hneg, Int.floor_int_add, floor_half, add_zero, neg_neg]

/-- C8 (amended): every monetary value the withdrawal dialog renders
(total salary, withdrawn, remaining) is displayed with zero fraction
digits — `formatNumber` uses `maximumFractionDigits: 0`, not a
two-fraction-digit format. -/
theorem modal_amounts_zero_fraction_digits (eid : ℕ) (nm : String)
    (s w : ℚ) :
    fracDigitCount (openWithdrawalModal eid nm s w).salaryText = 0
    ∧ fracDigitCount (openWithdrawalModal eid nm s w).withdrawnText = 0
    ∧ fracDigitCount (openWithdrawalModal eid nm s w).remainingText = 0 :=
  ⟨fracDigitCount_rs_formatNumber s, fracDigitCount_rs_formatNumber w,
   fracDigitCount_rs_formatNumber (s - w)⟩

/-- C8 counterexample: for salary 1500 and nothing withdrawn, the dialog
displays the remaining balance as `Rs 1,500` — with zero fraction digits,
not two. -/
theorem twoFractionDigits_counterexample :
    (openWithdrawalModal 1 "Asha" 1500 0).remainingText = "Rs 1,500"
    ∧ fracDigitCount "Rs 1,500" = 0
    ∧ ¬(fracDigitCount "Rs 1,500" = 2) := by
  refine ⟨?_, by decide, by decide⟩
  show "Rs " ++ formatNumber ((1500 : ℚ) - 0) = "Rs 1,500"
  have h1 : (1500 : ℚ) - 0 = ((1500 : ℤ) : ℚ) := by norm_num
  rw [h1]
  unfold formatNumber formatNumberChars
  rw [roundHalfAway_intCast]
  decide

/-- `takeWhile` takes all of an all-true block. -/
theorem takeWhile_all (p : Char → Bool) (l : List Char)
    (hl : ∀ c ∈ l, p c = true) : l.takeWhile p = l := by
  induction l with
  | nil => rfl
  | cons a t ih =>
    rw [List.takeWhile_cons, if_pos (hl a (by simp))]
    rw [ih fun c hc => hl c (List.mem_cons_of_mem a hc)]

/-- `dropWhile` drops all of an all-true block. -/
theorem dropWhile_all (p : Char → Bool) (l : List Char)
    (hl : ∀ c ∈ l, p c = true) : l.dropWhile p = [] := by
  induction l with
  | nil => rfl
  | cons a t ih =>
    rw [List.dropWhile_cons, if_pos (hl a (by simp))]
    exact ih fun c hc => hl c (List.mem_cons_of_mem a hc)

/-- `takeWhile` over an all-true block followed by a failing head stops
exactly at the block. -/
theorem takeWhile_append_cons (p : Char → Bool) (l : List Char) (x : Char)
    (xs : List Char) (hl : ∀ c ∈ l, p c = true) (hx : p x = false) :
    (l ++ x :: xs).takeWhile p = l := by
  induction l with
  | nil =>
    rw [List.nil_append, List.takeWhile_cons, hx]
    rfl
  | cons a t ih =>
    rw [List.cons_append, List.takeWhile_cons, if_pos (hl a (by simp))]
    rw [ih fun c hc => hl c (List.mem_cons_of_mem a hc)]

/-- `dropWhile` over an all-true block followed by a failing head resumes
exactly at that head. -/
theorem dropWhile_append_cons (p : Char → Bool) (l : List Char) (x : Char)
    (xs : List Char) (hl : ∀ c ∈ l, p c = true) (hx : p x = false) :
    (l ++ x :: xs).dropWhile p = x :: xs := by
  induction l with
  | nil =>
    rw [List.nil_append, List.dropWhile_cons, hx]
    rfl
  | cons a t ih =>
    rw [List.cons_append, List.dropWhile_cons, if_pos (hl a (by simp))]
    exact ih fun c hc => hl c (List.mem_cons_of_mem a hc)

/-- Value of a digit character, for digits. -/
theorem digitToChar_val (d : ℕ) (h : d < 10) :
    (digitToChar d).toNat - 48 = d := by
  interval_cases d <;> decide

/-- Digit characters of digits satisfy `isDigit`. -/
theorem digitToChar_isDigit (d : ℕ) (h : d < 10) :
    (digitToChar d).isDigit = true := by
  interval_cases d <;> decide

/-- All entries of `natDigitsAux` are digits. -/
theorem natDigitsAux_lt : ∀ (fuel n : ℕ), ∀ d ∈ natDigitsAux fuel n, d < 10
  | 0, _ => by simp [natDigitsAux]
  | _ + 1, 0 => by simp [natDigitsAux]
  | fuel + 1, n + 1 => by
    intro d hd
    rw [natDigitsAux] at hd
    rcases List.mem_cons.mp hd with rfl | hd
    · omega
    · exact natDigitsAux_lt fuel ((n + 1) / 10) d hd

/-- `natDigitsAux` computes the base-10 expansion: folding the digits
back recovers the number, given enough fuel. -/
theorem natDigitsAux_val : ∀ (fuel n : ℕ), n ≤ fuel →
    (natDigitsAux fuel n).foldr (fun d a => 10 * a + d) 0 = n
  | 0, 0, _ => rfl
  | 0, _ + 1, h => absurd h (by omega)
  | _ + 1, 0, _ => rfl
  | fuel + 1, n + 1, h => by
    rw [natDigitsAux, List.foldr_cons,
      natDigitsAux_val fuel ((n + 1) / 10) (by omega)]
    omega

/-- A positive number has at least one digit. -/
theorem natDigitsAux_ne_nil (fuel n : ℕ) (h1 : 0 < n) (h2 : n ≤ fuel) :
    ¬(natDigitsAux fuel n = []) := by
  match fuel, n with
  | 0, n => omega
  | fuel + 1, 0 => omega
  | fuel + 1, n + 1 =>
    rw [natDigitsAux]
    simp

/-- `natToChars` is never empty. -/
theorem natToChars_ne_nil (n : ℕ) : ¬(natToChars n = []) := by
  unfold natToChars
  split
  · simp
  · rename_i h
    intro hh
    rw [List.reverse_eq_nil_iff, List.map_eq_nil_iff] at hh
    exact natDigitsAux_ne_nil n n (Nat.pos_of_ne_zero h) le_rfl hh

/-- Characters of `natToChars` come from digits below 10. -/
theorem mem_natToChars_lt (n : ℕ) (c : Char) (h : c ∈ natToChars n) :
    ∃ d, d < 10 ∧ c = digitToChar d := by
  unfold natToChars at h
  split at h
  · refine ⟨0, by omega, ?_⟩
    simpa using h
  · rw [List.mem_reverse] at h
    obtain ⟨d, hd, rfl⟩ := List.mem_map.mp h
    exact ⟨d, natDigitsAux_lt n n d hd, rfl⟩

/-- Every character of `natToChars` satisfies `isDigit`. -/
theorem natToChars_all_digits (n : ℕ) :
    ∀ c ∈ natToChars n, c.isDigit = true := by
  intro c h
  obtain ⟨d, hd, rfl⟩ := mem_natToChars_lt n c h
  exact digitToChar_isDigit d hd

/-- Folding digit characters back through the parser step recovers the
digit fold. -/
theorem foldr_digits_map (m : List ℕ) (hm : ∀ d ∈ m, d < 10) :
    (m.map digitToChar).foldr (fun c a => 10 * a + (c.toNat - 48)) 0
      = m.foldr (fun d a => 10 * a + d) 0 := by
  induction m with
  | nil => rfl
  | cons d t ih =>
    rw [List.map_cons, List.foldr_cons, List.foldr_cons,
      ih fun x hx => hm x (List.mem_cons_of_mem d hx),
      digitToChar_val d (hm d (by simp))]

/-- Parsing the decimal rendering of `n` recovers `n`. -/
theorem parseNatChars_natToChars (n : ℕ) :
    parseNatChars (natToChars n) = n := by
  unfold natToChars parseNatChars
  split
  · rename_i h
    rw [h]
    rfl
  · rw [List.foldl_reverse, foldr_digits_map (natDigits n) (natDigitsAux_lt n n)]
    exact natDigitsAux_val n n le_rfl

/-- Characters of `fracDigits3` come from digits below 10 (for
`f < 1000`). -/
theorem mem_fracDigits3_lt (f : ℕ) (hf : f < 1000) (c : Char)
    (h : c ∈ fracDigits3 f) : ∃ d, d < 10 ∧ c = digitToChar d := by
  unfold fracDigits3 at h
  split at h
  · simp only [List.mem_cons, List.not_mem_nil, or_false] at h
    rcases h with rfl | rfl | rfl
    · exact ⟨f / 100, by omega, rfl⟩
    · exact ⟨f / 10 % 10, by omega, rfl⟩
    · exact ⟨f % 10, by omega, rfl⟩
  · split at h
    · simp only [List.mem_cons, List.not_mem_nil, or_false] at h
      rcases h with rfl | rfl
      · exact ⟨f / 100, by omega, rfl⟩
      · exact ⟨f / 10 % 10, by omega, rfl⟩
    · simp only [List.mem_cons, List.not_mem_nil, or_false] at h
      subst h
      exact ⟨f / 100, by omega, rfl⟩

/-- All characters of `fracDigits3` satisfy `isDigit`. -/
theorem fracDigits3_all_digits (f : ℕ) (hf : f < 1000) :
    ∀ c ∈ fracDigits3 f, c.isDigit = true := by
  intro c h
  obtain ⟨d, hd, rfl⟩ := mem_fracDigits3_lt f hf c h
  exact digitToChar_isDigit d hd

/-- No character of `fracChars` is a comma. -/
theorem fracChars_no_comma (f : ℕ) (hf : f < 1000) :
    ∀ c ∈ fracChars f, ¬(c = ',') := by
  unfold fracChars
  split
  · simp
  · intro c hc
    rcases List.mem_cons.mp hc with rfl | hc
    · decide
    · obtain ⟨d, _, rfl⟩ := mem_fracDigits3_lt f hf c hc
      exact digitToChar_ne_comma d

/-- Parsing the trimmed fraction digits recovers `f / 1000`. -/
theorem fracDigits3_parse (f : ℕ) (hf : f < 1000) :
    (parseNatChars (fracDigits3 f) : ℚ) / 10 ^ (fracDigits3 f).length
      = (f : ℚ) / 1000 := by
  unfold fracDigits3
  split
  · rename_i h10
    have e1 : parseNatChars
        [digitToChar (f / 100), digitToChar (f / 10 % 10), digitToChar (f % 10)] = f := by
      unfold parseNatChars
      simp only [List.foldl_cons, List.foldl_nil]
      rw [digitToChar_val (f / 100) (by omega),
        digitToChar_val (f / 10 % 10) (by omega),
        digitToChar_val (f % 10) (by omega)]
      omega
    rw [e1]
    norm_num
  · rename_i h10
    split
    · rename_i h100
      obtain ⟨k, rfl⟩ : ∃ k, f = 10 * k := ⟨f / 10, by omega⟩
      have e1 : parseNatChars
          [digitToChar (10 * k / 100), digitToChar (10 * k / 10 % 10)] = k := by
        unfold parseNatChars
        simp only [List.foldl_cons, List.foldl_nil]
        rw [digitToChar_val (10 * k / 100) (by omega),
          digitToChar_val (10 * k / 10 % 10) (by omega)]
        omega
      rw [e1]
      simp only [List.length_cons, List.length_nil]
      push_cast
      rw [div_eq_div_iff (by norm_num) (by norm_num)]
      ring
    · rename_i h100
      obtain ⟨k, rfl⟩ : ∃ k, f = 100 * k := ⟨f / 100, by omega⟩
      have e1 : parseNatChars [digitToChar (100 * k / 100)] = k := by
        unfold parseNatChars
        simp only [List.foldl_cons, List.foldl_nil]
        rw [digitToChar_val (100 * k / 100) (by omega)]
        omega
      rw [e1]
      simp only [List.length_cons, List.length_nil]
      push_cast
      rw [div_eq_div_iff (by norm_num) (by norm_num)]
      ring

/-- Division with remainder, cast to `ℚ`, recombines to `a / 1000`. -/
theorem nat_div_mod_cast_1000 (a : ℕ) :
    ((a / 1000 : ℕ) : ℚ) + ((a % 1000 : ℕ) : ℚ) / 1000 = (a : ℚ) / 1000 := by
  have h := Nat.div_add_mod a 1000
  have h2 : ((1000 * (a / 1000) + a % 1000 : ℕ) : ℚ) = (a : ℚ) := by rw [h]
  push_cast at h2
  field_simp
  linarith

/-- Parsing the plain (ungrouped, unsigned) rendering of
`I + f / 1000` recovers that value. -/
theorem parseUnsignedDec_render (I f : ℕ) (hf : f < 1000) :
    parseUnsignedDec (natToChars I ++ fracChars f)
      = some ((I : ℚ) + (f : ℚ) / 1000) := by
  have hne : (natToChars I).isEmpty = false := by
    cases hh : natToChars I with
    | nil => exact absurd hh (natToChars_ne_nil I)
    | cons a t => rfl
  by_cases h0 : f = 0
  · subst h0
    have hfe : fracChars 0 = [] := rfl
    rw [hfe, List.append_nil]
    unfold parseUnsignedDec
    rw [takeWhile_all Char.isDigit _ (natToChars_all_digits I),
      dropWhile_all Char.isDigit _ (natToChars_all_digits I)]
    simp only [hne, Bool.false_eq_true, if_false]
    rw [parseNatChars_natToChars]
    norm_num
  · have hfe : fracChars f = '.' :: fracDigits3 f := by
      unfold fracChars
      rw [if_neg h0]
    rw [hfe]
    unfold parseUnsignedDec
    rw [takeWhile_append_cons Char.isDigit _ _ _ (natToChars_all_digits I) (by decide),
      dropWhile_append_cons Char.isDigit _ _ _ (natToChars_all_digits I) (by decide)]
    have hall : (fracDigits3 f).all Char.isDigit = true := by
      rw [List.all_eq_true]
      exact fun c hc => fracDigits3_all_digits f hf c hc
    simp only [hall, hne, Bool.false_and, Bool.not_false, Bool.true_and,
      Bool.and_self, if_true]
    rw [parseNatChars_natToChars, fracDigits3_parse f hf]

/-- `parseDec` starting at a digit character is the unsigned parse. -/
theorem parseDec_of_digit_head (c : Char) (cs : List Char)
    (h : c.isDigit = true) :
    parseDec (c :: cs) = parseUnsignedDec (c :: cs) := by
  have h1 : ¬(c = '-') := by
    rintro rfl
    simp at h
  have h2 : ¬(c = '+') := by
    rintro rfl
    simp at h
  simp only [parseDec, if_neg h1, if_neg h2]

/-- Parsing the plain signed rendering of `m / 1000` recovers exactly
`m / 1000`. -/
theorem parseDec_plainChars (m : ℤ) :
    parseDec (plainChars1000 m) = some ((m : ℚ) / 1000) := by
  have hmod : m.natAbs % 1000 < 1000 := Nat.mod_lt _ (by norm_num)
  rcases lt_or_le m 0 with hm | hm
  · have hsh : plainChars1000 m
        = '-' :: (natToChars (m.natAbs / 1000) ++ fracChars (m.natAbs % 1000)) := by
      unfold plainChars1000
      rw [if_pos hm]
      rfl
    rw [hsh]
    show (parseUnsignedDec
        (natToChars (m.natAbs / 1000) ++ fracChars (m.natAbs % 1000))).map
          (fun q => -q) = some ((m : ℚ) / 1000)
    rw [parseUnsignedDec_render _ _ hmod]
    rw [Option.map_some']
    congr 1
    rw [nat_div_mod_cast_1000]
    have habs : ((m.natAbs : ℕ) : ℚ) = -(m : ℚ) := by
      rw [Int.cast_natAbs, abs_of_neg hm]
      push_cast
      ring
    rw [habs]
    ring
  · have hsh : plainChars1000 m
        = natToChars (m.natAbs / 1000) ++ fracChars (m.natAbs % 1000) := by
      unfold plainChars1000
      rw [if_neg (not_lt.mpr hm)]
      rfl
    rw [hsh]
    obtain ⟨c, cs', hc⟩ := List.exists_cons_of_ne_nil (natToChars_ne_nil (m.natAbs / 1000))
    have hcd : c.isDigit = true := by
      apply natToChars_all_digits (m.natAbs / 1000)
      rw [hc]
      simp
    rw [show natToChars (m.natAbs / 1000) ++ fracChars (m.natAbs % 1000)
        = c :: (cs' ++ fracChars (m.natAbs % 1000)) by rw [hc]; rfl]
    rw [parseDec_of_digit_head c _ hcd]
    rw [show c :: (cs' ++ fracChars (m.natAbs % 1000))
        = natToChars (m.natAbs / 1000) ++ fracChars (m.natAbs % 1000) by rw [hc]; rfl]
    rw [parseUnsignedDec_render _ _ hmod]
    congr 1
    rw [nat_div_mod_cast_1000]
    congr 1
    rw [Int.cast_natAbs, abs_of_nonneg hm]

/-- The comma filter keeps a leading minus sign. -/
theorem filter_cons_dash (l : List Char) :
    ('-' :: l).filter (fun c => ¬(c = ','))
      = '-' :: l.filter (fun c => ¬(c = ',')) := by
  rw [List.filter_cons]
  simp

/-- No character of `natToChars`-grouped-by-`groupIN` or of the fraction
part is lost: stripping commas from the `en-IN` rendering yields the
plain rendering. -/
theorem stripCommas_renderINChars (q : ℚ) :
    (renderINChars q).filter (fun c => ¬(c = ','))
      = plainChars1000 (roundHalfAway (q * 1000)) := by
  unfold renderINChars renderGrouped1000 plainChars1000
  have hmod : (roundHalfAway (q * 1000)).natAbs % 1000 < 1000 :=
    Nat.mod_lt _ (by norm_num)
  have hbody : (groupIN (natToChars ((roundHalfAway (q * 1000)).natAbs / 1000))
      ++ fracChars ((roundHalfAway (q * 1000)).natAbs % 1000)).filter
        (fun c => ¬(c = ','))
      = natToChars ((roundHalfAway (q * 1000)).natAbs / 1000)
        ++ fracChars ((roundHalfAway (q * 1000)).natAbs % 1000) := by
    rw [List.filter_append,
      filter_groupIN_strip _ (natToChars_no_comma _),
      filter_eq_self_of_no_comma _ (fracChars_no_comma _ hmod)]
  by_cases hm : roundHalfAway (q * 1000) < 0
  · rw [if_pos hm, if_pos hm]
    rw [filter_cons_dash, hbody]
    rfl
  · rw [if_neg hm, if_neg hm]
    rw [List.nil_append]
    exact hbody

/-- Re-rendering the rounded value renders identically: rounding is
idempotent at the rendering scale. -/
theorem renderIN_round_idem (q : ℚ) :
    renderIN (((roundHalfAway (q * 1000) : ℤ) : ℚ) / 1000) = renderIN q := by
  unfold renderIN renderINChars
  have h : ((roundHalfAway (q * 1000) : ℤ) : ℚ) / 1000 * 1000
      = ((roundHalfAway (q * 1000) : ℤ) : ℚ) := by
    field_simp
  rw [h, roundHalfAway_intCast]

/-- `formatCurrency` leaves a non-numeric field unchanged. -/
theorem formatCurrency_eq_self (s : String)
    (hp : parseDec (stripCommas s).data = none) :
    formatCurrency s = s := by
  show (match parseDec (stripCommas s).data with
    | some q => if (stripCommas s).data.isEmpty = true then s else renderIN q
    | none => s) = s
  rw [hp]

/-- `formatCurrency` re-renders a numeric field from its parsed value. -/
theorem formatCurrency_eq_render (s : String) (q : ℚ)
    (hp : parseDec (stripCommas s).data = some q) :
    formatCurrency s = renderIN q := by
  show (match parseDec (stripCommas s).data with
    | some q => if (stripCommas s).data.isEmpty = true then s else renderIN q
    | none => s) = renderIN q
  rw [hp]
  show (if (stripCommas s).data.isEmpty = true then s else renderIN q) = renderIN q
  have hne : ¬((stripCommas s).data.isEmpty = true) := by
    intro hh
    cases hd : (stripCommas s).data with
    | nil =>
      rw [hd] at hp
      cases hp
    | cons a t =>
      rw [hd] at hh
      cases hh
  rw [if_neg hne]

/-- `formatCurrency` fixes every rendered output. -/
theorem formatCurrency_renderIN (q : ℚ) :
    formatCurrency (renderIN q) = renderIN q := by
  have hstrip : (stripCommas (renderIN q)).data
      = plainChars1000 (roundHalfAway (q * 1000)) :=
    stripCommas_renderINChars q
  have hp : parseDec (stripCommas (renderIN q)).data
      = some (((roundHalfAway (q * 1000) : ℤ) : ℚ) / 1000) := by
    rw [hstrip]
    exact parseDec_plainChars _
  rw [formatCurrency_eq_render _ _ hp, renderIN_round_idem]

/-- C10: the `formatCurrency` input transformation (strip commas, parse,
re-render with `en-IN` grouping) is idempotent — applying it twice yields
the same field value as applying it once. -/
theorem formatCurrency_idempotent (s : String) :
    formatCurrency (formatCurrency s) = formatCurrency s := by
  cases hp : parseDec (stripCommas s).data with
  | none =>
    rw [formatCurrency_eq_self s hp, formatCurrency_eq_self s hp]
  | some q =>
    rw [formatCurrency_eq_render s q hp]
    exact formatCurrency_renderIN q
